import Mathlib

/-!
Verification of the mgk-solana repository: a shallow embedding of the
blackjack card engine and the perpetuals position/margin engine
(encrypted-ixs/src/lib.rs) together with the guard and callback logic of
the on-chain program (programs/blackjack/src/lib.rs), and proofs of the
specified properties.

Machine integers are embedded as Nat (u8/u64/u128) and Int (i64), with
explicit reductions mod 2 ^ 64 or 2 ^ 128 exactly where the source relies
on fixed-width behaviour.  Encrypted values are embedded by the plaintext
values they decrypt to: every circuit first decrypts its inputs and
re-encrypts its outputs, so at this level the Enc wrappers are identities.
-/

namespace MGK

/-! ## Card engine: base-64 deck/hand codec (encrypted-ixs/src/lib.rs) -/

/-- One round of the decoding loops of Deck.to_array / Hand.to_array:
take the value mod 64, shift right by 6 bits, repeat n times. -/
def extractDigits : ℕ → ℕ → List ℕ
  | _, 0 => []
  | c, n + 1 => c % 64 :: extractDigits (c / 64) n

/-- The accumulation loop of Deck.from_array / Hand.from_array:
the sum of POWS_OF_SIXTY_FOUR i * a i, written in Horner form. -/
def fromDigits : List ℕ → ℕ
  | [] => 0
  | b :: t => b + 64 * fromDigits t

/-- Deck packs 52 six-bit card values into three u128 words (21+21+10). -/
structure Deck where
  card_one : ℕ
  card_two : ℕ
  card_three : ℕ
deriving DecidableEq

/-- Deck.from_array of the source.  Every addend POWS_OF_SIXTY_FOUR i *
(array i as u128) is below 2 ^ 128, so the only place u128 wrapping could
act is the running sum; the mod 2 ^ 128 keeps that behaviour. -/
def Deck.from_array (a : List ℕ) : Deck where
  card_one := fromDigits (a.take 21) % 2 ^ 128
  card_two := fromDigits ((a.drop 21).take 21) % 2 ^ 128
  card_three := fromDigits (a.drop 42) % 2 ^ 128

/-- Deck.to_array of the source: 21 digits from card_one, 21 from
card_two, 10 from card_three (the source interleaves the first two loops,
which extracts exactly these digits). -/
def Deck.to_array (d : Deck) : List ℕ :=
  extractDigits d.card_one 21 ++ extractDigits d.card_two 21 ++ extractDigits d.card_three 10

lemma fromDigits_lt_pow (l : List ℕ) (h : ∀ x ∈ l, x < 64) :
    fromDigits l < 64 ^ l.length := by
  induction l with
  | nil => simp [fromDigits]
  | cons b t ih =>
    have hb : b < 64 := h b (by simp)
    have ht : fromDigits t < 64 ^ t.length := ih (fun x hx => h x (by simp [hx]))
    have h1 : b + 64 * fromDigits t < 64 * (fromDigits t + 1) := by omega
    have h2 : 64 * (fromDigits t + 1) ≤ 64 * 64 ^ t.length := by
      exact Nat.mul_le_mul_left _ (Nat.succ_le_of_lt ht)
    calc fromDigits (b :: t) = b + 64 * fromDigits t := rfl
      _ < 64 * 64 ^ t.length := lt_of_lt_of_le h1 h2
      _ = 64 ^ (b :: t).length := by rw [List.length_cons]; ring

lemma extractDigits_fromDigits (l : List ℕ) (h : ∀ x ∈ l, x < 64) :
    extractDigits (fromDigits l) l.length = l := by
  induction l with
  | nil => simp [extractDigits]
  | cons b t ih =>
    have hb : b < 64 := h b (by simp)
    have h1 : (b + 64 * fromDigits t) % 64 = b := by omega
    have h2 : (b + 64 * fromDigits t) / 64 = fromDigits t := by omega
    calc extractDigits (fromDigits (b :: t)) (b :: t).length
        = (b + 64 * fromDigits t) % 64 ::
            extractDigits ((b + 64 * fromDigits t) / 64) t.length := rfl
      _ = b :: extractDigits (fromDigits t) t.length := by rw [h1, h2]
      _ = b :: t := by rw [ih (fun x hx => h x (by simp [hx]))]

/-- C4: for every 52-element array of byte values all below 64, to_array
inverts from_array: the three-u128 base-64 packing round-trips exactly. -/
theorem deck_roundtrip (a : List ℕ) (hlen : a.length = 52) (hlt : ∀ x ∈ a, x < 64) :
    (Deck.from_array a).to_array = a := by
  have hl1 : (a.take 21).length = 21 := by rw [List.length_take, hlen]; omega
  have hl2 : ((a.drop 21).take 21).length = 21 := by
    rw [List.length_take, List.length_drop, hlen]; omega
  have hl3 : (a.drop 42).length = 10 := by rw [List.length_drop, hlen]
  have hm1 : ∀ x ∈ a.take 21, x < 64 := fun x hx => hlt x (List.mem_of_mem_take hx)
  have hm2 : ∀ x ∈ (a.drop 21).take 21, x < 64 := fun x hx =>
    hlt x (List.mem_of_mem_drop (List.mem_of_mem_take hx))
  have hm3 : ∀ x ∈ a.drop 42, x < 64 := fun x hx => hlt x (List.mem_of_mem_drop hx)
  have hb1 : fromDigits (a.take 21) < 2 ^ 128 := by
    have := fromDigits_lt_pow _ hm1
    rw [hl1] at this
    calc fromDigits (a.take 21) < 64 ^ 21 := this
      _ ≤ 2 ^ 128 := by norm_num
  have hb2 : fromDigits ((a.drop 21).take 21) < 2 ^ 128 := by
    have := fromDigits_lt_pow _ hm2
    rw [hl2] at this
    calc fromDigits ((a.drop 21).take 21) < 64 ^ 21 := this
      _ ≤ 2 ^ 128 := by norm_num
  have hb3 : fromDigits (a.drop 42) < 2 ^ 128 := by
    have := fromDigits_lt_pow _ hm3
    rw [hl3] at this
    calc fromDigits (a.drop 42) < 64 ^ 10 := this
      _ ≤ 2 ^ 128 := by norm_num
  have e1 : extractDigits (fromDigits (a.take 21)) 21 = a.take 21 := by
    have := extractDigits_fromDigits _ hm1
    rwa [hl1] at this
  have e2 : extractDigits (fromDigits ((a.drop 21).take 21)) 21 = (a.drop 21).take 21 := by
    have := extractDigits_fromDigits _ hm2
    rwa [hl2] at this
  have e3 : extractDigits (fromDigits (a.drop 42)) 10 = a.drop 42 := by
    have := extractDigits_fromDigits _ hm3
    rwa [hl3] at this
  show extractDigits (fromDigits (a.take 21) % 2 ^ 128) 21 ++
      extractDigits (fromDigits ((a.drop 21).take 21) % 2 ^ 128) 21 ++
      extractDigits (fromDigits (a.drop 42) % 2 ^ 128) 10 = a
  rw [Nat.mod_eq_of_lt hb1, Nat.mod_eq_of_lt hb2, Nat.mod_eq_of_lt hb3, e1, e2, e3]
  have hsplit : (a.drop 21).take 21 ++ a.drop 42 = a.drop 21 := by
    have : (a.drop 21).drop 21 = a.drop 42 := by
      rw [List.drop_drop]
    rw [← this, List.take_append_drop]
  rw [List.append_assoc, hsplit, List.take_append_drop]

/-- Witness for C4 at the identity deck 0..51. -/
theorem deck_roundtrip_witness :
    (Deck.from_array (List.range 52)).to_array = List.range 52 :=
  deck_roundtrip (List.range 52) (by simp) (by decide)

/-! ## Card engine: hand value, hit, dealer play, resolution -/

/-- One iteration of the scoring loop of calculate_hand_value, acting on
the accumulator (value, has_ace) for a card rank already reduced mod 13:
rank 0 adds 11 and records an Ace, ranks above 10 add 10, every other
rank adds its numeric value. -/
def handStep (acc : ℕ × Bool) (r : ℕ) : ℕ × Bool :=
  if r = 0 then (acc.1 + 11, true)
  else if 10 < r then (acc.1 + 10, acc.2)
  else (acc.1 + r, acc.2)

/-- calculate_hand_value of the source.  The loop runs over the 11 slots
of the fixed hand array and only scores index i when i < hand_length,
which is the first min hand_length 11 entries; afterwards one single −10
adjustment is applied when the total exceeds 21 and an Ace is present. -/
def calculate_hand_value (hand : List ℕ) (hand_length : ℕ) : ℕ :=
  let acc := (((hand.take 11).take hand_length).map (fun c => c % 13)).foldl handStep (0, false)
  if 21 < acc.1 ∧ acc.2 = true then acc.1 - 10 else acc.1

/-- The per-rank score used by the loop of calculate_hand_value. -/
def rankValue (r : ℕ) : ℕ :=
  if r = 0 then 11 else if 10 < r then 10 else r

/-- Follows the words of the claim for C5: sum over exactly the first
hand_length slots with rank = card mod 13, counting rank 0 as 11, ranks
11 and 12 as 10, and every other rank as its numeric value; if the sum
exceeds 21 and at least one Ace is present, subtract 10 exactly once. -/
def spec_hand_value (hand : List ℕ) (hand_length : ℕ) : ℕ :=
  let ranks := (hand.take hand_length).map (fun c => c % 13)
  let total := (ranks.map (fun r => if r = 0 then 11 else if r = 11 ∨ r = 12 then 10 else r)).sum
  if 21 < total ∧ 0 ∈ ranks then total - 10 else total

lemma handStep_eq (v : ℕ) (b : Bool) (r : ℕ) :
    handStep (v, b) r = (v + rankValue r, b || decide (r = 0)) := by
  unfold handStep rankValue
  by_cases h0 : r = 0
  · simp [h0]
  · by_cases h10 : 10 < r <;> simp [h0, h10]

lemma foldl_handStep_fst (rs : List ℕ) (v : ℕ) (b : Bool) :
    (rs.foldl handStep (v, b)).1 = v + (rs.map rankValue).sum := by
  induction rs generalizing v b with
  | nil => simp
  | cons r t ih =>
    rw [List.foldl_cons, handStep_eq, ih]
    simp [add_assoc]

lemma foldl_handStep_snd (rs : List ℕ) (v : ℕ) (b : Bool) :
    (rs.foldl handStep (v, b)).2 = true ↔ (b = true ∨ 0 ∈ rs) := by
  induction rs generalizing v b with
  | nil => simp
  | cons r t ih =>
    rw [List.foldl_cons, handStep_eq, ih]
    by_cases h0 : r = 0
    · simp [h0]
    · simp [h0, or_assoc]
      tauto

/-- C5 counterexample: the hand [0, 8] of length 2 evaluates to 19, not
to the claimed 20 — the loop adds the rank itself for pip cards, so rank
8 (the nine of the suit) contributes 8, giving 11 + 8 = 19. -/
theorem hand_value_example_counterexample :
    calculate_hand_value [0, 8, 53, 53, 53, 53, 53, 53, 53, 53, 53] 2 = 19
    ∧ (19 : ℕ) ≠ 20 := by
  exact ⟨by decide, by decide⟩

/-- C5 (amended): calculate_hand_value agrees with the scoring rule
stated in the spec (first hand_length slots, Ace as 11, ranks 11 and 12
as 10, every other rank as its numeric value, one −10 soft-Ace adjustment
when the total exceeds 21); the example hand [0, 8] of length 2 evaluates
to 19 and [0, 12, 11] of length 3 evaluates to 21. -/
theorem hand_value_spec :
    (∀ (hand : List ℕ) (hand_length : ℕ), hand.length = 11 → hand_length ≤ 11 →
      calculate_hand_value hand hand_length = spec_hand_value hand hand_length)
    ∧ calculate_hand_value [0, 8, 53, 53, 53, 53, 53, 53, 53, 53, 53] 2 = 19
    ∧ calculate_hand_value [0, 12, 11, 53, 53, 53, 53, 53, 53, 53, 53] 3 = 21 := by
  refine ⟨?_, by decide, by decide⟩
  intro hand len _hlen hle
  unfold calculate_hand_value spec_hand_value
  have htake : (hand.take 11).take len = hand.take len := by
    rw [List.take_take, min_eq_left hle]
  rw [htake]
  set ranks := (hand.take len).map (fun c => c % 13) with hranks
  have hmap : ranks.map rankValue =
      ranks.map (fun r => if r = 0 then 11 else if r = 11 ∨ r = 12 then 10 else r) := by
    apply List.map_congr_left
    intro r hr
    have hr13 : r < 13 := by
      rw [hranks] at hr
      obtain ⟨c, _, hc⟩ := List.mem_map.mp hr
      omega
    unfold rankValue
    by_cases h0 : r = 0
    · simp [h0]
    · by_cases h10 : 10 < r
      · simp [h0, h10, show r = 11 ∨ r = 12 by omega]
      · simp [h0, h10, show ¬(r = 11 ∨ r = 12) by omega]
  have hfst := foldl_handStep_fst ranks 0 false
  have hsnd := foldl_handStep_snd ranks 0 false
  rw [hmap] at hfst
  set total := (ranks.map (fun r => if r = 0 then 11 else if r = 11 ∨ r = 12 then 10 else r)).sum
  rcases hface : (ranks.foldl handStep (0, false)).2 with _ | _
  · have : ¬(false = true ∨ 0 ∈ ranks) := by
      intro hc
      have := hsnd.mpr hc
      rw [hface] at this
      exact Bool.false_ne_true this
    have hnot : ¬(0 ∈ ranks) := fun hc => this (Or.inr hc)
    simp [hfst, hface, hnot]
  · have hmem : 0 ∈ ranks := by
      have := hsnd.mp (by rw [hface])
      tauto
    simp [hfst, hface, hmem]

/-- Witness for C5 at the example hand [Ace, 9] of length 2. -/
theorem hand_value_spec_witness :
    calculate_hand_value [0, 8, 53, 53, 53, 53, 53, 53, 53, 53, 53] 2 =
      spec_hand_value [0, 8, 53, 53, 53, 53, 53, 53, 53, 53, 53] 2 :=
  hand_value_spec.1 [0, 8, 53, 53, 53, 53, 53, 53, 53, 53, 53] 2 (by decide) (by decide)

/-- resolve_game of the source, comparing the two final hand values: the
if-chain returning outcome codes 0-4 in priority order. -/
def resolve_game (player_hand dealer_hand : List ℕ)
    (player_hand_length dealer_hand_length : ℕ) : ℕ :=
  if 21 < calculate_hand_value player_hand player_hand_length then 0
  else if 21 < calculate_hand_value dealer_hand dealer_hand_length then 1
  else if calculate_hand_value dealer_hand dealer_hand_length <
      calculate_hand_value player_hand player_hand_length then 2
  else if calculate_hand_value player_hand player_hand_length <
      calculate_hand_value dealer_hand dealer_hand_length then 3
  else 4

/-- C6: resolve_game returns 0 exactly on a player bust, else 1 on a
dealer bust, else 2 or 3 for the strictly higher hand, else 4 for a push;
in particular a double bust yields 0. -/
theorem resolve_game_spec : ∀ (ph dh : List ℕ) (pl dl : ℕ),
    (resolve_game ph dh pl dl = 0 ↔ 21 < calculate_hand_value ph pl)
    ∧ (resolve_game ph dh pl dl = 1 ↔
        calculate_hand_value ph pl ≤ 21 ∧ 21 < calculate_hand_value dh dl)
    ∧ (resolve_game ph dh pl dl = 2 ↔
        calculate_hand_value ph pl ≤ 21 ∧ calculate_hand_value dh dl ≤ 21 ∧
          calculate_hand_value dh dl < calculate_hand_value ph pl)
    ∧ (resolve_game ph dh pl dl = 3 ↔
        calculate_hand_value ph pl ≤ 21 ∧ calculate_hand_value dh dl ≤ 21 ∧
          calculate_hand_value ph pl < calculate_hand_value dh dl)
    ∧ (resolve_game ph dh pl dl = 4 ↔
        calculate_hand_value ph pl ≤ 21 ∧ calculate_hand_value dh dl ≤ 21 ∧
          calculate_hand_value ph pl = calculate_hand_value dh dl) := by
  intro ph dh pl dl
  unfold resolve_game
  split_ifs <;>
    refine ⟨?_, ?_, ?_, ?_, ?_⟩ <;>
    constructor <;>
    intro hh <;>
    first
    | exact hh.elim
    | omega

/-- One iteration of the dealer_play loop body: while the current dealer
hand value is below 17, write the deck card at index player_hand_size +
size into slot size and increment size.  Out-of-range indexing (a panic
in the source, unreachable for well-formed games) is modelled by a
default of 0. -/
def dealerStep (deck_array : List ℕ) (player_hand_size : ℕ)
    (st : List ℕ × ℕ) : List ℕ × ℕ :=
  if calculate_hand_value st.1 st.2 < 17 then
    (st.1.set st.2 (deck_array.getD (player_hand_size + st.2) 0), st.2 + 1)
  else st

/-- dealer_play of the source: the loop for i in 0..7 applied to the
initial dealer hand and dealer_hand_size, returning the final hand and
the revealed final size. -/
def dealer_play (deck_array dealer : List ℕ)
    (player_hand_size dealer_hand_size : ℕ) : List ℕ × ℕ :=
  (dealerStep deck_array player_hand_size)^[7] (dealer, dealer_hand_size)

lemma dealerStep_snd (d : List ℕ) (p : ℕ) (st : List ℕ × ℕ) :
    (dealerStep d p st).2 = st.2 ∨ (dealerStep d p st).2 = st.2 + 1 := by
  unfold dealerStep
  split_ifs <;> simp

lemma dealerStep_iterate_snd (d : List ℕ) (p : ℕ) (n : ℕ) (st : List ℕ × ℕ) :
    st.2 ≤ ((dealerStep d p)^[n] st).2 ∧ ((dealerStep d p)^[n] st).2 ≤ st.2 + n := by
  induction n with
  | zero => simp
  | succ k ih =>
    rw [Function.iterate_succ_apply']
    rcases dealerStep_snd d p ((dealerStep d p)^[k] st) with h | h <;> omega

/-- C7: dealer_play is the sevenfold iteration of a step that draws the
deck card at index player_hand_size + size exactly when the current hand
value is below 17; the size grows by at most 7, and if the hand value is
at least 17 before any draw, no card is drawn and the hand and size are
returned unchanged. -/
theorem dealer_play_spec : ∀ (deck_array dealer : List ℕ)
    (player_hand_size dealer_hand_size : ℕ),
    (17 ≤ calculate_hand_value dealer dealer_hand_size →
      dealer_play deck_array dealer player_hand_size dealer_hand_size =
        (dealer, dealer_hand_size))
    ∧ dealer_hand_size ≤
        (dealer_play deck_array dealer player_hand_size dealer_hand_size).2
    ∧ (dealer_play deck_array dealer player_hand_size dealer_hand_size).2 ≤
        dealer_hand_size + 7 := by
  intro deck_array dealer phs dhs
  refine ⟨?_, (dealerStep_iterate_snd deck_array phs 7 (dealer, dhs)).1,
    (dealerStep_iterate_snd deck_array phs 7 (dealer, dhs)).2⟩
  intro h17
  have hfix : dealerStep deck_array phs (dealer, dhs) = (dealer, dhs) := by
    unfold dealerStep
    simp only []
    rw [if_neg (by omega)]
  exact Function.iterate_fixed hfix 7

/-- Witness for C7: a dealer hand worth 19 (ranks 10 and 9) draws
nothing. -/
theorem dealer_play_spec_witness :
    dealer_play (List.range 52) [10, 9, 53, 53, 53, 53, 53, 53, 53, 53, 53] 2 2 =
      ([10, 9, 53, 53, 53, 53, 53, 53, 53, 53, 53], 2) :=
  (dealer_play_spec (List.range 52) [10, 9, 53, 53, 53, 53, 53, 53, 53, 53, 53] 2 2).1
    (by decide)

/-- player_hit of the source (the encrypted circuit).  The flag it
reveals is is_bust computed from the hand value BEFORE the draw; the
updated hand value is computed after the draw (player_updated_hand_value
in the source) but discarded. -/
def player_hit (deck : List ℕ) (player_hand : List ℕ)
    (player_hand_size dealer_hand_size : ℕ) : List ℕ × Bool :=
  let player_hand_value := calculate_hand_value player_hand player_hand_size
  let is_bust := decide (21 < player_hand_value)
  let new_card := if is_bust = false then
      deck.getD (player_hand_size + dealer_hand_size) 0
    else 53
  (player_hand.set player_hand_size new_card, is_bust)

/-- C1: evaluation at a failing input.  Hand [9, 10] is worth 19; the
drawn card (deck index 2 + 2 = 4, rank 4) raises the recomputed hand
value to 23 > 21, yet the revealed bust flag is false, because the
source reveals the pre-draw is_bust and discards the updated value.  The
claim requires the flag to be true exactly when the new total exceeds
21. -/
theorem player_hit_bust_flag_code_bug :
    player_hit (List.range 52) [9, 10, 53, 53, 53, 53, 53, 53, 53, 53, 53] 2 2 =
      ([9, 10, 4, 53, 53, 53, 53, 53, 53, 53, 53], false)
    ∧ 21 < calculate_hand_value [9, 10, 4, 53, 53, 53, 53, 53, 53, 53, 53] 3 := by
  exact ⟨by decide, by decide⟩

/-! ## On-chain game state machine guards (programs/blackjack/src/lib.rs) -/

/-- GameState of the source (repr u8 enum). -/
inductive GameState where
  | Initial
  | PlayerTurn
  | DealerTurn
  | Resolving
  | Resolved
deriving DecidableEq

/-- The error codes of the source relevant to the verified entry points
and callbacks. -/
inductive ErrorCode where
  | InvalidGameState
  | InvalidMove
  | InsufficientCollateral
  | AbortedComputation
  | InvalidPositionOwner
deriving DecidableEq

/-- BlackjackGame account record; only the fields read or written by the
verified entry points are modelled (the remaining fields are ciphertexts
and nonces that the guards never touch). -/
structure BlackjackGame where
  game_id : ℕ
  game_state : GameState
  player_has_stood : Bool
  player_hand_size : ℕ
  dealer_hand_size : ℕ
deriving DecidableEq

/-- The player_hit instruction handler: require a PlayerTurn state and a
player who has not stood, then queue the MPC computation; the record is
not mutated by the handler itself, and a failed require aborts the
transaction with the record unchanged. -/
def player_hit_entry (g : BlackjackGame) : Except ErrorCode BlackjackGame :=
  if g.game_state = GameState.PlayerTurn then
    if g.player_has_stood = false then Except.ok g
    else Except.error ErrorCode.InvalidMove
  else Except.error ErrorCode.InvalidGameState

/-- The player_double_down instruction handler: identical guards to
player_hit. -/
def player_double_down_entry (g : BlackjackGame) : Except ErrorCode BlackjackGame :=
  if g.game_state = GameState.PlayerTurn then
    if g.player_has_stood = false then Except.ok g
    else Except.error ErrorCode.InvalidMove
  else Except.error ErrorCode.InvalidGameState

/-- The player_stand instruction handler: identical guards to
player_hit. -/
def player_stand_entry (g : BlackjackGame) : Except ErrorCode BlackjackGame :=
  if g.game_state = GameState.PlayerTurn then
    if g.player_has_stood = false then Except.ok g
    else Except.error ErrorCode.InvalidMove
  else Except.error ErrorCode.InvalidGameState

/-- The dealer_play instruction handler: require a DealerTurn state. -/
def dealer_play_entry (g : BlackjackGame) : Except ErrorCode BlackjackGame :=
  if g.game_state = GameState.DealerTurn then Except.ok g
  else Except.error ErrorCode.InvalidGameState

/-- The resolve_game instruction handler: require a Resolving state. -/
def resolve_game_entry (g : BlackjackGame) : Except ErrorCode BlackjackGame :=
  if g.game_state = GameState.Resolving then Except.ok g
  else Except.error ErrorCode.InvalidGameState

/-- C8: the hit, double-down and stand entry points succeed with the
record unchanged exactly when the game state is PlayerTurn and the player
has not stood, and otherwise fail with InvalidGameState or InvalidMove;
dealer_play succeeds exactly in DealerTurn and resolve_game exactly in
Resolving, each failing with InvalidGameState otherwise. -/
theorem guard_invariants : ∀ g : BlackjackGame,
    (player_hit_entry g = Except.ok g ↔
      g.game_state = GameState.PlayerTurn ∧ g.player_has_stood = false)
    ∧ (player_hit_entry g = Except.error ErrorCode.InvalidGameState ↔
      g.game_state ≠ GameState.PlayerTurn)
    ∧ (player_hit_entry g = Except.error ErrorCode.InvalidMove ↔
      g.game_state = GameState.PlayerTurn ∧ g.player_has_stood = true)
    ∧ (player_double_down_entry g = Except.ok g ↔
      g.game_state = GameState.PlayerTurn ∧ g.player_has_stood = false)
    ∧ (player_double_down_entry g = Except.error ErrorCode.InvalidGameState ↔
      g.game_state ≠ GameState.PlayerTurn)
    ∧ (player_double_down_entry g = Except.error ErrorCode.InvalidMove ↔
      g.game_state = GameState.PlayerTurn ∧ g.player_has_stood = true)
    ∧ (player_stand_entry g = Except.ok g ↔
      g.game_state = GameState.PlayerTurn ∧ g.player_has_stood = false)
    ∧ (player_stand_entry g = Except.error ErrorCode.InvalidGameState ↔
      g.game_state ≠ GameState.PlayerTurn)
    ∧ (player_stand_entry g = Except.error ErrorCode.InvalidMove ↔
      g.game_state = GameState.PlayerTurn ∧ g.player_has_stood = true)
    ∧ (dealer_play_entry g = Except.ok g ↔ g.game_state = GameState.DealerTurn)
    ∧ (dealer_play_entry g = Except.error ErrorCode.InvalidGameState ↔
      g.game_state ≠ GameState.DealerTurn)
    ∧ (resolve_game_entry g = Except.ok g ↔ g.game_state = GameState.Resolving)
    ∧ (resolve_game_entry g = Except.error ErrorCode.InvalidGameState ↔
      g.game_state ≠ GameState.Resolving) := by
  intro g
  obtain ⟨gid, st, stood, ps, ds⟩ := g
  cases st <;> cases stood <;>
    simp [player_hit_entry, player_double_down_entry, player_stand_entry,
      dealer_play_entry, resolve_game_entry]

/-! ## Perpetuals engine (encrypted-ixs/src/lib.rs)

Fixed-width integer semantics: wrap64 reduces an integer into the i64
range with two-complement wrapping, u64_as_i64 is the Rust cast
(x as i64) of a u64 value, i64_as_u64 is the cast (x as u64) of an i64
value, and i64 division truncates toward zero (Int.tdiv). -/

/-- Reduce an integer into [-2 ^ 63, 2 ^ 63) by two-complement
wrapping. -/
def wrap64 (z : ℤ) : ℤ := (z + 2 ^ 63) % 2 ^ 64 - 2 ^ 63

/-- The Rust cast of a u64 value to i64. -/
def u64_as_i64 (n : ℕ) : ℤ := wrap64 n

/-- The Rust cast of an i64 value to u64. -/
def i64_as_u64 (z : ℤ) : ℕ := (z % 2 ^ 64).toNat

/-- Output of calculate_position_value. -/
structure PositionValueOutput where
  current_value : ℕ
  pnl : ℤ
  is_liquidatable : ℕ
deriving DecidableEq

/-- calculate_position_value of the source: signed pnl from the side and
price difference, then current_value = ((collateral_usd as i64) + pnl)
as u64 — a plain cast, with no clamping — and the liquidatable flag from
comparing that u64 against size_usd / 20. -/
def calculate_position_value (size_usd collateral_usd entry_price current_price : ℕ)
    (side : ℕ) : PositionValueOutput :=
  let price_diff : ℤ :=
    if side = 0 then wrap64 (u64_as_i64 current_price - u64_as_i64 entry_price)
    else wrap64 (u64_as_i64 entry_price - u64_as_i64 current_price)
  let pnl : ℤ := Int.tdiv (wrap64 (u64_as_i64 size_usd * price_diff)) (u64_as_i64 entry_price)
  let current_value : ℕ := i64_as_u64 (wrap64 (u64_as_i64 collateral_usd + pnl))
  let liquidation_threshold := size_usd / 20
  let is_liquidatable := if current_value < liquidation_threshold then 1 else 0
  { current_value := current_value, pnl := pnl, is_liquidatable := is_liquidatable }

/-- C2: evaluation at a failing input.  A long of size 1000 entered at
100 with the price at 10 has pnl −900, so collateral 50 + pnl = −850 is
negative; the cast to u64 wraps to 2 ^ 64 − 850 instead of clamping to 0,
and the position is reported NOT liquidatable although the clamped value
0 is below the threshold size / 20 = 50. -/
theorem calculate_position_value_underwater_code_bug :
    (calculate_position_value 1000 50 100 10 0).pnl = -900
    ∧ (50 : ℤ) + (calculate_position_value 1000 50 100 10 0).pnl < 0
    ∧ (calculate_position_value 1000 50 100 10 0).current_value = 2 ^ 64 - 850
    ∧ (calculate_position_value 1000 50 100 10 0).is_liquidatable = 0
    ∧ (0 : ℕ) < 1000 / 20 := by
  refine ⟨by decide, by decide, by decide, by decide, by decide⟩

/-- Output of remove_collateral. -/
structure RemoveCollateralOutput where
  new_collateral : ℕ
  removed_amount : ℕ
  can_remove : ℕ
  new_leverage : ℕ
deriving DecidableEq

/-- remove_collateral of the source: the post-removal collateral floored
at 0, the 5 percent margin check against size / 20, and the committed
values chosen by the can_remove flag. -/
def remove_collateral (current_collateral remove_amount size : ℕ) :
    RemoveCollateralOutput :=
  let new_collateral :=
    if remove_amount < current_collateral then current_collateral - remove_amount else 0
  let min_collateral := size / 20
  let can_remove := if min_collateral ≤ new_collateral then 1 else 0
  let final_collateral := if can_remove = 1 then new_collateral else current_collateral
  let final_removed := if can_remove = 1 then remove_amount else 0
  let new_leverage := if 0 < final_collateral then size / final_collateral else 0
  { new_collateral := final_collateral, removed_amount := final_removed,
    can_remove := can_remove, new_leverage := new_leverage }

/-- Position account record of the perpetuals program; the ciphertext
fields are modelled by the plaintext values they decrypt to (the all-zero
ciphertext is modelled as 0), and only the fields read or written by the
verified callbacks are carried. -/
structure Position where
  owner : ℕ
  position_id : ℕ
  side : ℕ
  size_usd_encrypted : ℕ
  collateral_usd_encrypted : ℕ
  liquidator : ℕ
  update_time : ℤ
deriving DecidableEq

/-- remove_collateral_callback of the source: on a successful MPC output
it requires can_remove == 1 — aborting with InsufficientCollateral and no
mutation otherwise — and only then commits the new collateral and the
update time. -/
def remove_collateral_callback (pos : Position) (now : ℤ)
    (out : RemoveCollateralOutput) : Except ErrorCode Position :=
  if out.can_remove = 1 then
    Except.ok { pos with collateral_usd_encrypted := out.new_collateral, update_time := now }
  else
    Except.error ErrorCode.InsufficientCollateral

/-- C9: remove_collateral succeeds exactly when the floored post-removal
collateral keeps the 5 percent margin; on success the collateral becomes
current − remove and removed_amount is the requested amount, on failure
the collateral output is unchanged and removed_amount is 0; the callback
commits exactly the successful output and aborts with
InsufficientCollateral — mutating nothing — otherwise. -/
theorem remove_collateral_spec :
    ∀ (current_collateral remove_amount size : ℕ) (pos : Position) (now : ℤ),
    ((remove_collateral current_collateral remove_amount size).can_remove = 1 ↔
      size / 20 ≤ current_collateral - remove_amount)
    ∧ ((remove_collateral current_collateral remove_amount size).can_remove = 1 →
      (remove_collateral current_collateral remove_amount size).new_collateral =
          current_collateral - remove_amount
        ∧ (remove_collateral current_collateral remove_amount size).removed_amount =
          remove_amount)
    ∧ ((remove_collateral current_collateral remove_amount size).can_remove ≠ 1 →
      (remove_collateral current_collateral remove_amount size).new_collateral =
          current_collateral
        ∧ (remove_collateral current_collateral remove_amount size).removed_amount = 0)
    ∧ ((remove_collateral current_collateral remove_amount size).can_remove = 1 →
      remove_collateral_callback pos now
          (remove_collateral current_collateral remove_amount size) =
        Except.ok { pos with
          collateral_usd_encrypted := current_collateral - remove_amount,
          update_time := now })
    ∧ ((remove_collateral current_collateral remove_amount size).can_remove ≠ 1 →
      remove_collateral_callback pos now
          (remove_collateral current_collateral remove_amount size) =
        Except.error ErrorCode.InsufficientCollateral) := by
  intro cc ra sz pos now
  unfold remove_collateral remove_collateral_callback
  by_cases hfloor : ra < cc <;> by_cases hmargin : sz / 20 ≤ cc - ra <;>
    simp_all

/-- Witness for C9: removing 30 from collateral 100 with size 1000 keeps
the margin (threshold 50 ≤ 70) and commits collateral 70. -/
theorem remove_collateral_spec_witness :
    remove_collateral_callback
        { owner := 0, position_id := 0, side := 0, size_usd_encrypted := 1000,
          collateral_usd_encrypted := 100, liquidator := 0, update_time := 0 } 5
        (remove_collateral 100 30 1000) =
      Except.ok { owner := 0, position_id := 0, side := 0, size_usd_encrypted := 1000,
                  collateral_usd_encrypted := 70, liquidator := 0, update_time := 5 } :=
  (remove_collateral_spec 100 30 1000
    { owner := 0, position_id := 0, side := 0, size_usd_encrypted := 1000,
      collateral_usd_encrypted := 100, liquidator := 0, update_time := 0 } 5).2.2.2.1
    (by decide)

/-- Output of liquidate. -/
structure LiquidateOutput where
  is_liquidatable : ℕ
  remaining_collateral : ℕ
  liquidation_penalty : ℕ
deriving DecidableEq

/-- liquidate of the source: pnl as in calculate_position_value, the
current value clamped at 0 here, the 5 percent threshold check, and a
10 percent penalty taken from the clamped current value when
liquidatable. -/
def liquidate (size_usd collateral_usd entry_price current_price : ℕ)
    (side : ℕ) : LiquidateOutput :=
  let price_diff : ℤ :=
    if side = 0 then wrap64 (u64_as_i64 current_price - u64_as_i64 entry_price)
    else wrap64 (u64_as_i64 entry_price - u64_as_i64 current_price)
  let pnl : ℤ := Int.tdiv (wrap64 (u64_as_i64 size_usd * price_diff)) (u64_as_i64 entry_price)
  let current_value_i64 : ℤ := wrap64 (u64_as_i64 collateral_usd + pnl)
  let current_value : ℕ := if 0 < current_value_i64 then i64_as_u64 current_value_i64 else 0
  let liquidation_threshold := size_usd / 20
  let is_liquidatable := if current_value < liquidation_threshold then 1 else 0
  let liquidation_penalty := if is_liquidatable = 1 then current_value / 10 else 0
  let remaining_collateral :=
    if is_liquidatable = 1 then
      if liquidation_penalty < current_value then current_value - liquidation_penalty else 0
    else current_value
  { is_liquidatable := is_liquidatable, remaining_collateral := remaining_collateral,
    liquidation_penalty := liquidation_penalty }

/-- liquidate_callback of the source: on any successful MPC output it
zeroes the encrypted size and collateral and stamps the update time,
without inspecting the is_liquidatable flag (the output only feeds the
emitted event). -/
def liquidate_callback (pos : Position) (now : ℤ) (_output : LiquidateOutput) : Position :=
  { pos with size_usd_encrypted := 0, collateral_usd_encrypted := 0, update_time := now }

/-- C10: the liquidate callback zeroes the position size and collateral
for every successful computation output, including outputs whose
is_liquidatable flag is 0 — witnessed by a healthy position (size 1000,
collateral 500, price unchanged) that the circuit reports as not
liquidatable and the callback still zeroes. -/
theorem liquidate_callback_spec : ∀ (pos : Position) (now : ℤ) (out : LiquidateOutput),
    (liquidate_callback pos now out).size_usd_encrypted = 0
    ∧ (liquidate_callback pos now out).collateral_usd_encrypted = 0
    ∧ (liquidate 1000 500 100 100 0).is_liquidatable = 0
    ∧ (liquidate_callback pos now (liquidate 1000 500 100 100 0)).size_usd_encrypted = 0
    ∧ (liquidate_callback pos now
        (liquidate 1000 500 100 100 0)).collateral_usd_encrypted = 0 := by
  intro pos now out
  refine ⟨rfl, rfl, by decide, rfl, rfl⟩

/-! ## Fee-rate curve (programs/blackjack/src/lib.rs, calculate_fee_rate)

The u64 checked arithmetic of the source is embedded by Option-valued
operations: none corresponds to the MathOverflow error. -/

def checked_mul (a b : ℕ) : Option ℕ := if a * b < 2 ^ 64 then some (a * b) else none

def checked_add (a b : ℕ) : Option ℕ := if a + b < 2 ^ 64 then some (a + b) else none

def checked_sub (a b : ℕ) : Option ℕ := if b ≤ a then some (a - b) else none

def checked_div (a b : ℕ) : Option ℕ := if b = 0 then none else some (a / b)

/-- FeesMode of the source. -/
inductive FeesMode where
  | Fixed
  | Linear
  | Optimal
deriving DecidableEq

/-- Fees parameters; only the fields read by calculate_fee_rate are
modelled. -/
structure Fees where
  utilization_mult : ℕ
  fee_max : ℕ
  fee_optimal : ℕ
deriving DecidableEq

/-- Assets totals; only the fields read by calculate_fee_rate are
modelled. -/
structure Assets where
  owned : ℕ
  locked : ℕ
deriving DecidableEq

/-- Borrow rate parameters; only the field read by calculate_fee_rate is
modelled. -/
structure BorrowRateParams where
  optimal_utilization : ℕ
deriving DecidableEq

/-- Custody account; only the fields read by calculate_fee_rate are
modelled. -/
structure Custody where
  assets : Assets
  fees : Fees
  borrow_rate : BorrowRateParams
deriving DecidableEq

/-- calculate_fee_rate of the source: Fixed returns base_rate; Linear
adds utilization * utilization_mult / 10000 and clamps at fee_max;
Optimal interpolates from base_rate toward base_rate + fee_optimal below
optimal_utilization and from fee_optimal toward fee_max above it,
clamping at fee_max.  Every question-mark propagation of a checked
operation becomes an Option bind. -/
def calculate_fee_rate (mode : FeesMode) (base_rate : ℕ) (custody : Custody) :
    Option ℕ :=
  match mode with
  | FeesMode.Fixed => some base_rate
  | FeesMode.Linear =>
    if custody.assets.owned = 0 then some base_rate
    else do
      let u1 ← checked_mul custody.assets.locked 10000
      let utilization ← checked_div u1 custody.assets.owned
      let a1 ← checked_mul utilization custody.fees.utilization_mult
      let additional_fee ← checked_div a1 10000
      let total_fee ← checked_add base_rate additional_fee
      pure (min total_fee custody.fees.fee_max)
  | FeesMode.Optimal =>
    if custody.assets.owned = 0 then some base_rate
    else do
      let u1 ← checked_mul custody.assets.locked 10000
      let utilization ← checked_div u1 custody.assets.owned
      if utilization ≤ custody.borrow_rate.optimal_utilization then do
        let r1 ← checked_mul utilization 10000
        let utilization_ratio ← checked_div r1 custody.borrow_rate.optimal_utilization
        let m1 ← checked_mul custody.fees.fee_optimal utilization_ratio
        let m2 ← checked_div m1 10000
        let fee ← checked_add base_rate m2
        pure (min fee custody.fees.fee_max)
      else do
        let excess_util ← checked_sub utilization custody.borrow_rate.optimal_utilization
        let e1 ← checked_mul excess_util 10000
        let headroom ← checked_sub 10000 custody.borrow_rate.optimal_utilization
        let excess_ratio ← checked_div e1 headroom
        let d1 ← checked_sub custody.fees.fee_max custody.fees.fee_optimal
        let m1 ← checked_mul d1 excess_ratio
        let m2 ← checked_div m1 10000
        let fee ← checked_add custody.fees.fee_optimal m2
        pure (min fee custody.fees.fee_max)

/-- Utilization in basis points as computed inside calculate_fee_rate. -/
def utilization_bps (c : Custody) : ℕ := c.assets.locked * 10000 / c.assets.owned

/-- Replace the locked amount of a custody, keeping every other
parameter fixed. -/
def setLocked (c : Custody) (l : ℕ) : Custody :=
  { c with assets := { c.assets with locked := l } }

lemma setLocked_fees (c : Custody) (l : ℕ) : (setLocked c l).fees = c.fees := rfl

lemma setLocked_borrow_rate (c : Custody) (l : ℕ) :
    (setLocked c l).borrow_rate = c.borrow_rate := rfl

/-- A custody at the optimal-utilization boundary: owned 10000, optimal
utilization 5000 bps, fee_optimal 100, fee_max 300. -/
def custodyCexA : Custody :=
  { assets := { owned := 10000, locked := 5000 },
    fees := { utilization_mult := 0, fee_max := 300, fee_optimal := 100 },
    borrow_rate := { optimal_utilization := 5000 } }

/-- The same custody with one more locked unit, just above the optimal
utilization. -/
def custodyCexB : Custody := setLocked custodyCexA 5001

/-- C3 counterexample: with base_rate 100 the Optimal fee at utilization
5000 is 200 (base_rate + fee_optimal), but at utilization 5001 the above-
branch restarts at fee_optimal and returns 100 < 200, so the fee is not
non-decreasing in utilization. -/
theorem fee_rate_not_monotone_counterexample :
    custodyCexA.assets.owned = custodyCexB.assets.owned
    ∧ custodyCexA.fees = custodyCexB.fees
    ∧ custodyCexA.borrow_rate = custodyCexB.borrow_rate
    ∧ utilization_bps custodyCexA = 5000
    ∧ utilization_bps custodyCexB = 5001
    ∧ calculate_fee_rate FeesMode.Optimal 100 custodyCexA = some 200
    ∧ calculate_fee_rate FeesMode.Optimal 100 custodyCexB = some 100 := by
  refine ⟨by decide, by decide, by decide, by decide, by decide, by decide, by decide⟩

lemma linear_fee_eq (base_rate : ℕ) (c : Custody) (r : ℕ)
    (h : c.assets.owned ≠ 0)
    (hr : calculate_fee_rate FeesMode.Linear base_rate c = some r) :
    r = min (base_rate + utilization_bps c * c.fees.utilization_mult / 10000)
        c.fees.fee_max := by
  simp only [calculate_fee_rate] at hr
  rw [if_neg h] at hr
  simp only [checked_mul, checked_div, checked_add, Option.bind_eq_bind,
    Option.bind_eq_some, Option.ite_none_right_eq_some, Option.ite_none_left_eq_some,
    Option.some.injEq, Option.pure_def] at hr
  obtain ⟨a, ⟨ha1, rfl⟩, b, ⟨hb0, rfl⟩, e, ⟨he1, rfl⟩, f, ⟨hf0, rfl⟩, g, ⟨hg1, rfl⟩, rfl⟩ := hr
  rfl

lemma optimal_fee_below_eq (base_rate : ℕ) (c : Custody) (r : ℕ)
    (h : c.assets.owned ≠ 0)
    (hle : utilization_bps c ≤ c.borrow_rate.optimal_utilization)
    (hr : calculate_fee_rate FeesMode.Optimal base_rate c = some r) :
    r = min (base_rate +
        c.fees.fee_optimal *
          (utilization_bps c * 10000 / c.borrow_rate.optimal_utilization) / 10000)
      c.fees.fee_max := by
  simp only [calculate_fee_rate] at hr
  rw [if_neg h] at hr
  simp only [checked_mul, checked_div, checked_add, checked_sub, Option.bind_eq_bind,
    Option.bind_eq_some, Option.ite_none_right_eq_some, Option.ite_none_left_eq_some,
    Option.some.injEq, Option.pure_def] at hr
  obtain ⟨a, ⟨ha1, rfl⟩, b, ⟨hb0, rfl⟩, hri⟩ := hr
  rw [if_pos (by simpa [utilization_bps] using hle)] at hri
  simp only [Option.bind_eq_bind, Option.bind_eq_some, Option.ite_none_right_eq_some,
    Option.ite_none_left_eq_some, Option.some.injEq, Option.pure_def] at hri
  obtain ⟨d, ⟨hd1, rfl⟩, e, ⟨he0, rfl⟩, f, ⟨hf1, rfl⟩, g, ⟨hg0, rfl⟩, i, ⟨hi1, rfl⟩, rfl⟩ := hri
  rfl

lemma optimal_fee_above_eq (base_rate : ℕ) (c : Custody) (r : ℕ)
    (h : c.assets.owned ≠ 0)
    (hgt : c.borrow_rate.optimal_utilization < utilization_bps c)
    (hr : calculate_fee_rate FeesMode.Optimal base_rate c = some r) :
    r = min (c.fees.fee_optimal +
        (c.fees.fee_max - c.fees.fee_optimal) *
          ((utilization_bps c - c.borrow_rate.optimal_utilization) * 10000 /
            (10000 - c.borrow_rate.optimal_utilization)) / 10000)
      c.fees.fee_max := by
  simp only [calculate_fee_rate] at hr
  rw [if_neg h] at hr
  simp only [checked_mul, checked_div, checked_add, checked_sub, Option.bind_eq_bind,
    Option.bind_eq_some, Option.ite_none_right_eq_some, Option.ite_none_left_eq_some,
    Option.some.injEq, Option.pure_def] at hr
  obtain ⟨a, ⟨ha1, rfl⟩, b, ⟨hb0, rfl⟩, hri⟩ := hr
  rw [if_neg (by simp only [utilization_bps] at hgt; omega)] at hri
  simp only [Option.bind_eq_bind, Option.bind_eq_some, Option.ite_none_right_eq_some,
    Option.ite_none_left_eq_some, Option.some.injEq, Option.pure_def] at hri
  obtain ⟨d, ⟨hd1, rfl⟩, e, ⟨he1, rfl⟩, f, ⟨hf1, rfl⟩, g, ⟨hg0, rfl⟩, i, ⟨hi1, rfl⟩,
    j, ⟨hj1, rfl⟩, k, ⟨hk0, rfl⟩, m, ⟨hm1, rfl⟩, rfl⟩ := hri
  rfl

/-- C3 (amended): with owned > 0 the Linear and Optimal fees are always
at most fee_max; the Linear fee is non-decreasing in utilization (all
other custody parameters fixed), and the Optimal fee is non-decreasing in
utilization separately on each side of optimal_utilization, but may
decrease when utilization crosses from at most optimal_utilization to
above it whenever base_rate > 0 (see the counterexample). -/
theorem fee_rate_bound_and_monotone (c : Custody) (base_rate l1 l2 r1 r2 : ℕ)
    (howned : 0 < c.assets.owned)
    (hu : utilization_bps (setLocked c l1) ≤ utilization_bps (setLocked c l2)) :
    (∀ r, calculate_fee_rate FeesMode.Linear base_rate c = some r → r ≤ c.fees.fee_max)
    ∧ (∀ r, calculate_fee_rate FeesMode.Optimal base_rate c = some r → r ≤ c.fees.fee_max)
    ∧ (calculate_fee_rate FeesMode.Linear base_rate (setLocked c l1) = some r1 →
        calculate_fee_rate FeesMode.Linear base_rate (setLocked c l2) = some r2 →
        r1 ≤ r2)
    ∧ (utilization_bps (setLocked c l2) ≤ c.borrow_rate.optimal_utilization →
        calculate_fee_rate FeesMode.Optimal base_rate (setLocked c l1) = some r1 →
        calculate_fee_rate FeesMode.Optimal base_rate (setLocked c l2) = some r2 →
        r1 ≤ r2)
    ∧ (c.borrow_rate.optimal_utilization < utilization_bps (setLocked c l1) →
        calculate_fee_rate FeesMode.Optimal base_rate (setLocked c l1) = some r1 →
        calculate_fee_rate FeesMode.Optimal base_rate (setLocked c l2) = some r2 →
        r1 ≤ r2) := by
  have hne : c.assets.owned ≠ 0 := Nat.pos_iff_ne_zero.mp howned
  have hne1 : (setLocked c l1).assets.owned ≠ 0 := hne
  have hne2 : (setLocked c l2).assets.owned ≠ 0 := hne
  refine ⟨?_, ?_, ?_, ?_, ?_⟩
  · intro r hr
    rw [linear_fee_eq base_rate c r hne hr]
    exact min_le_right _ _
  · intro r hr
    by_cases hle : utilization_bps c ≤ c.borrow_rate.optimal_utilization
    · rw [optimal_fee_below_eq base_rate c r hne hle hr]
      exact min_le_right _ _
    · rw [optimal_fee_above_eq base_rate c r hne (by omega) hr]
      exact min_le_right _ _
  · intro hr1 hr2
    rw [linear_fee_eq base_rate (setLocked c l1) r1 hne1 hr1,
      linear_fee_eq base_rate (setLocked c l2) r2 hne2 hr2]
    simp only [setLocked_fees]
    gcongr
  · intro hle2 hr1 hr2
    have hle1 : utilization_bps (setLocked c l1) ≤ c.borrow_rate.optimal_utilization :=
      le_trans hu hle2
    rw [optimal_fee_below_eq base_rate (setLocked c l1) r1 hne1 hle1 hr1,
      optimal_fee_below_eq base_rate (setLocked c l2) r2 hne2 hle2 hr2]
    simp only [setLocked_fees, setLocked_borrow_rate]
    gcongr
  · intro hgt1 hr1 hr2
    have hgt2 : c.borrow_rate.optimal_utilization < utilization_bps (setLocked c l2) :=
      lt_of_lt_of_le hgt1 hu
    rw [optimal_fee_above_eq base_rate (setLocked c l1) r1 hne1 hgt1 hr1,
      optimal_fee_above_eq base_rate (setLocked c l2) r2 hne2 hgt2 hr2]
    simp only [setLocked_fees, setLocked_borrow_rate]
    gcongr

/-- A custody with owned 10000 and utilization_mult 100 for the C3
witness. -/
def custodyWitness : Custody :=
  { assets := { owned := 10000, locked := 0 },
    fees := { utilization_mult := 100, fee_max := 300, fee_optimal := 100 },
    borrow_rate := { optimal_utilization := 5000 } }

/-- Witness for C3 at a Linear custody with owned 10000 and
utilization_mult 100: fee 110 at locked 1000 and fee 120 at locked
2000. -/
theorem fee_rate_bound_and_monotone_witness :
    calculate_fee_rate FeesMode.Linear 100 (setLocked custodyWitness 1000) = some 110
    ∧ calculate_fee_rate FeesMode.Linear 100 (setLocked custodyWitness 2000) = some 120
    ∧ (110 : ℕ) ≤ 120 := by
  refine ⟨by decide, by decide, ?_⟩
  exact (fee_rate_bound_and_monotone custodyWitness 100 1000 2000 110 120
    (by decide) (by decide)).2.2.1 (by decide) (by decide)

end MGK
